import Mathlib

/-!
Verification of the `bufferToggle` operator
(src/src/internal/operators/bufferToggle.ts).

The operator is embedded as an event-driven operational semantics over the
single-threaded, cooperative, synchronous push model of the library.  A run
of the operator is the processing of a sequence of delivery events coming
from the three source roles (main source, openings source, the per-buffer
closing sources) plus downstream cancellation.  Each event is handled
exactly as the corresponding callback in `bufferToggle` handles it.

Modelled from the spec (sections 4.1 and 4.2 of spec.md), because the
`Subscription` and `OperatorSubscriber` classes are not part of the source
tree: a subscriber, once stopped (terminal signal delivered, or its
subscription torn down), ignores all further callbacks; closing an already
closed subscription is a no-op; adding a child to an already-closed
subscription immediately tears the child down.  Everything else below is
translated directly from `bufferToggle.ts`.

State representation: the TypeScript `buffers : T[][]` array of live buffer
objects is represented by the sublist of `bufs` whose entries have
`live = true` (creation order is preserved, as the code only pushes at the
end and removes by identity).  A `Buf` entry keeps its frozen `values`
after removal, because the captured `emit` closure can still reference the
buffer object afterwards.  `closerActive` models whether the buffer's
closing `OperatorSubscriber` is wired up and not stopped.
-/

namespace BufferToggle

/-- A downstream delivery: `subscriber.next(buffer)`, `subscriber.complete()`
or `subscriber.error(e)`. -/
inductive Out (T E : Type) where
  | next (xs : List T)
  | complete
  | error (e : E)
deriving DecidableEq

/-- One buffer object created by the openings handler.  `live` is its
membership in the `buffers` array; `closerActive` is the state of its
closing subscription. -/
structure Buf (T : Type) where
  id : Nat
  values : List T
  live : Bool
  closerActive : Bool
deriving DecidableEq

/-- Operator state: created buffers, fresh-id counter, the downstream
output trace, whether the downstream subscriber is stopped, and whether
the openings subscriber is still active. -/
structure OpState (T E : Type) where
  bufs : List (Buf T)
  nextId : Nat
  out : List (Out T E)
  stopped : Bool
  openingsActive : Bool
deriving DecidableEq

variable {T E : Type}

/-- `subscriber.next(xs)`: delivered only while the downstream subscriber
is not stopped. -/
def dnext (xs : List T) (s : OpState T E) : OpState T E :=
  if s.stopped then s else { s with out := s.out ++ [Out.next xs] }

/-- `subscriber.complete()`: terminal, stops the downstream subscriber. -/
def dcomplete (s : OpState T E) : OpState T E :=
  if s.stopped then s else { s with out := s.out ++ [Out.complete], stopped := true }

/-- `subscriber.error(e)`: terminal, stops the downstream subscriber. -/
def derror (e : E) (s : OpState T E) : OpState T E :=
  if s.stopped then s else { s with out := s.out ++ [Out.error e], stopped := true }

/-- `arrRemove(buffers, buffer)`: remove the first live buffer with the
given id from the `buffers` array (marking it not live). -/
def removeLive (i : Nat) : List (Buf T) → List (Buf T)
  | [] => []
  | b :: rest =>
    if b.id == i && b.live then { b with live := false } :: rest
    else b :: removeLive i rest

/-- The contents of the buffer object with the given id (the closure in the
code captures the object itself; its contents are frozen once removed). -/
def getValues (i : Nat) (bufs : List (Buf T)) : List T :=
  match bufs.find? (fun b => b.id == i) with
  | some b => b.values
  | none => []

/-- Whether the closing subscriber for buffer `i` is wired and not
stopped. -/
def closerOn (i : Nat) (bufs : List (Buf T)) : Bool :=
  match bufs.find? (fun b => b.id == i) with
  | some b => b.closerActive
  | none => false

/-- Set the closing-subscriber flag of buffer `i`. -/
def setCloser (i : Nat) (a : Bool) (bufs : List (Buf T)) : List (Buf T) :=
  bufs.map (fun b => if b.id == i then { b with closerActive := a } else b)

/-- The body of the captured `emit` closure for buffer `i`, up to the
closing-subscription teardown that the caller accounts for:
`arrRemove(buffers, buffer); subscriber.next(buffer)`. -/
def emitBuffer (i : Nat) (s : OpState T E) : OpState T E :=
  dnext (getValues i s.bufs) { s with bufs := removeLive i s.bufs }

/-- What a closing source may do synchronously during its own subscribe
call, before `closingSubscription.add(...)` has run: deliver a value,
complete, or error. -/
inductive CAct (E : Type) where
  | cnext
  | ccomplete
  | cerror (e : E)
deriving DecidableEq

/-- Context while the closing subscribe call is in flight: the operator
state, whether the closing `OperatorSubscriber` has stopped itself, and
whether `closingSubscription.unsubscribe()` has been called (by `emit`). -/
structure SyncCtx (T E : Type) where
  st : OpState T E
  subStopped : Bool
  subClosed : Bool
deriving DecidableEq

/-- One synchronous delivery from the closing source during its subscribe
call.  A stopped subscriber (its own terminal already seen, or the
downstream torn down) ignores the delivery.  `next` runs `emit`
(which calls `closingSubscription.unsubscribe()`); `complete` stops the
subscriber and runs `emit`; an error is forwarded downstream. -/
def doAct (i : Nat) (a : CAct E) (c : SyncCtx T E) : SyncCtx T E :=
  if c.subStopped || c.st.stopped then c
  else
    match a with
    | CAct.cnext => { c with st := emitBuffer i c.st, subClosed := true }
    | CAct.ccomplete => { st := emitBuffer i c.st, subStopped := true, subClosed := true }
    | CAct.cerror e => { c with st := derror e c.st, subStopped := true }

/-- All synchronous deliveries of the closing source, in order. -/
def runActs (i : Nat) : List (CAct E) → SyncCtx T E → SyncCtx T E
  | [], c => c
  | a :: rest, c => runActs i rest (doAct i a c)

/-- A fresh, empty buffer.  Its closing subscription is not wired yet. -/
def newBuf (T : Type) (i : Nat) : Buf T :=
  { id := i, values := [], live := true, closerActive := false }

/-- The return from the closing subscribe call:
`closingSubscription.add(innerSub)` registers the inner subscriber, but
immediately tears it down when the closing subscription was already
unsubscribed, or when the subscriber already stopped itself. -/
def finishClosing (i : Nat) (c : SyncCtx T E) : OpState T E :=
  { c.st with bufs := setCloser i (!(c.subStopped || c.subClosed)) c.st.bufs }

/-- The openings `onValue(openValue)` handler: push a new empty buffer,
start the closing subscribe call (processing whatever the closing source
does synchronously), then register the closing subscription. -/
def stepOpening (acts : List (CAct E)) (s : OpState T E) : OpState T E :=
  if s.stopped || !s.openingsActive then s
  else
    finishClosing s.nextId
      (runActs s.nextId acts
        { st := { s with bufs := s.bufs ++ [newBuf T s.nextId], nextId := s.nextId + 1 },
          subStopped := false, subClosed := false })

/-- Delivery events the operator can receive, across the three source
roles and downstream cancellation.  An `opening` event carries what its
closing source does synchronously during subscribe; later (asynchronous)
closing deliveries are the `closeNext`, `closeDone` and `closeError`
events, tagged by buffer id. -/
inductive Ev (T E : Type) where
  | opening (acts : List (CAct E))
  | openingsComplete
  | openingsError (e : E)
  | mainValue (v : T)
  | mainComplete
  | mainError (e : E)
  | closeNext (i : Nat)
  | closeDone (i : Nat)
  | closeError (i : Nat) (e : E)
  | cancel
deriving DecidableEq

/-- The main `onValue` handler: `for (const buffer of buffers) buffer.push(value)`. -/
def fanOut (v : T) (bufs : List (Buf T)) : List (Buf T) :=
  bufs.map (fun b => if b.live then { b with values := b.values ++ [v] } else b)

/-- Asynchronous value from the closing source of buffer `i`: run `emit`,
whose `closingSubscription.unsubscribe()` now also stops the (registered)
closing subscriber. -/
def stepCloseNext (i : Nat) (s : OpState T E) : OpState T E :=
  if s.stopped || !(closerOn i s.bufs) then s
  else
    let s1 := emitBuffer i s
    { s1 with bufs := setCloser i false s1.bufs }

/-- Asynchronous completion of the closing source of buffer `i`: the
subscriber stops itself and runs `emit` (the same closure). -/
def stepCloseDone (i : Nat) (s : OpState T E) : OpState T E :=
  if s.stopped || !(closerOn i s.bufs) then s
  else
    let s1 := emitBuffer i s
    { s1 with bufs := setCloser i false s1.bufs }

/-- Asynchronous error of the closing source of buffer `i`: the subscriber
stops itself and forwards the error downstream (default error handling of
the wrapping subscriber). -/
def stepCloseError (i : Nat) (e : E) (s : OpState T E) : OpState T E :=
  if s.stopped || !(closerOn i s.bufs) then s
  else derror e { s with bufs := setCloser i false s.bufs }

/-- The main `onComplete` handler:
`while (buffers.length > 0) subscriber.next(buffers.shift()); subscriber.complete()`.
Its net effect: every live buffer is emitted in creation order and removed,
then completion is signalled. -/
def stepMainComplete (s : OpState T E) : OpState T E :=
  if s.stopped then s
  else
    dcomplete
      { s with
        out := s.out ++ (s.bufs.filter (fun b => b.live)).map (fun b => Out.next b.values),
        bufs := s.bufs.map (fun b => { b with live := false }) }

/-- One delivery event, dispatched to the handler `bufferToggle` installs
for it.  Stopped subscribers ignore deliveries; the openings completion
handler is `noop`. -/
def step (ev : Ev T E) (s : OpState T E) : OpState T E :=
  match ev with
  | Ev.opening acts => stepOpening acts s
  | Ev.openingsComplete => if s.stopped then s else { s with openingsActive := false }
  | Ev.openingsError e =>
    if s.stopped || !s.openingsActive then s
    else derror e { s with openingsActive := false }
  | Ev.mainValue v => if s.stopped then s else { s with bufs := fanOut v s.bufs }
  | Ev.mainComplete => stepMainComplete s
  | Ev.mainError e => if s.stopped then s else derror e s
  | Ev.closeNext i => stepCloseNext i s
  | Ev.closeDone i => stepCloseDone i s
  | Ev.closeError i e => stepCloseError i e s
  | Ev.cancel => if s.stopped then s else { s with stopped := true }

/-- Process a list of delivery events in order. -/
def run (s : OpState T E) : List (Ev T E) → OpState T E
  | [] => s
  | ev :: evs => run (step ev s) evs

/-- The state right after `operate`'s subscribe body has set up
`buffers = []`. -/
def initState : OpState T E :=
  { bufs := [], nextId := 0, out := [], stopped := false, openingsActive := true }

/-- The subscribe call on the derived source.  `bufferToggle` subscribes
to the openings notifier first (line 63) and to the main source only
afterwards (line 90), so every delivery an openings source makes
synchronously during its subscribe call is processed before any
synchronous delivery of the main source. -/
def subscribeToggle (openingsSync : List (List (CAct E))) (mainSync : List T) : OpState T E :=
  run initState (openingsSync.map Ev.opening ++ mainSync.map Ev.mainValue)

end BufferToggle

namespace BufferToggle

variable {T E : Type}

theorem step_stopped (ev : Ev T E) (s : OpState T E) (h : s.stopped = true) :
    step ev s = s := by
  cases ev <;>
    simp [step, stepOpening, stepCloseNext, stepCloseDone, stepCloseError, stepMainComplete, h]

theorem run_stopped (s : OpState T E) (es : List (Ev T E)) (h : s.stopped = true) :
    run s es = s := by
  induction es with
  | nil => rfl
  | cons ev evs ih => rw [run, step_stopped ev s h]; exact ih

theorem run_append (s : OpState T E) (a b : List (Ev T E)) :
    run s (a ++ b) = run (run s a) b := by
  induction a generalizing s with
  | nil => rfl
  | cons ev evs ih => rw [List.cons_append, run, run, ih]

end BufferToggle

namespace BufferToggle

variable {T E : Type}

/-- A sample mid-run state: one live buffer, one already flushed buffer. -/
def sampleA : OpState Nat Nat :=
  { bufs := [{ id := 0, values := [7], live := true, closerActive := true },
             { id := 1, values := [3], live := false, closerActive := false }],
    nextId := 2, out := [Out.next [3]], stopped := false, openingsActive := true }

theorem run_mainValues_initState (vs : List T) :
    run (initState : OpState T E) (vs.map Ev.mainValue) = initState := by
  induction vs with
  | nil => rfl
  | cons v vs ih =>
    have hstep : step (Ev.mainValue v) (initState : OpState T E) = initState := by
      simp [step, fanOut, initState]
    rw [List.map_cons, run, hstep]
    exact ih

/-- C1: while the downstream consumer is not stopped, a main-source value is,
at the moment of its arrival, appended at the end of the values sequence of
exactly the buffers currently in the live-buffer set; buffers already removed
are untouched, and the delivery creates or removes no buffer (so a buffer
created after the arrival starts empty and never receives the value). -/
theorem C1_fanout (s : OpState T E) (v : T) (h : s.stopped = false) :
    (step (Ev.mainValue v) s).bufs
        = s.bufs.map (fun b => if b.live then { b with values := b.values ++ [v] } else b)
      ∧ (step (Ev.mainValue v) s).out = s.out
      ∧ (step (Ev.mainValue v) s).nextId = s.nextId
      ∧ (step (Ev.mainValue v) s).stopped = false := by
  simp [step, fanOut, h]

theorem C1_fanout_witness :
    sampleA.stopped = false
      ∧ ((step (Ev.mainValue 9) sampleA).bufs
            = sampleA.bufs.map
                (fun b => if b.live then { b with values := b.values ++ [9] } else b)
          ∧ (step (Ev.mainValue 9) sampleA).out = sampleA.out
          ∧ (step (Ev.mainValue 9) sampleA).nextId = sampleA.nextId
          ∧ (step (Ev.mainValue 9) sampleA).stopped = false) :=
  ⟨rfl, C1_fanout sampleA 9 rfl⟩

/-- C2 (refuting exhibit): with a single opening whose closing source
synchronously emits a value and then completes during its own subscribe call
(as the adapted source of a one-element sequence does), the flush closure
runs on the value and again on the completion — the closing subscription has
no registered child yet when `emit` unsubscribes it — and, because the code
emits unconditionally rather than only when the buffer was still found in
the live-buffer set, the same buffer is delivered downstream twice. -/
theorem C2_sync_close_double_emit :
    (run (initState : OpState Nat Nat) [Ev.opening [CAct.cnext, CAct.ccomplete]]).out
      = [Out.next [], Out.next []] := by
  rfl

/-- C3: if the main source completes while the downstream is not stopped,
each buffer still in the live-buffer set is emitted downstream in creation
(FIFO) order, then completion is signalled and the downstream stops; in
particular a run that receives only main values and then main completion
(zero openings) delivers exactly one completion and no values. -/
theorem C3_fifo_completion (s : OpState T E) (vs : List T) (h : s.stopped = false) :
    (step Ev.mainComplete s).out
        = s.out ++ (s.bufs.filter (fun b => b.live)).map (fun b => Out.next b.values)
            ++ [Out.complete]
      ∧ (step Ev.mainComplete s).stopped = true
      ∧ (run initState (vs.map Ev.mainValue ++ [Ev.mainComplete])).out
          = ([Out.complete] : List (Out T E)) := by
  refine ⟨?_, ?_, ?_⟩
  · simp [step, stepMainComplete, dcomplete, h]
  · simp [step, stepMainComplete, dcomplete, h]
  · rw [run_append, run_mainValues_initState]
    rfl

theorem C3_fifo_completion_witness :
    sampleA.stopped = false
      ∧ ((step Ev.mainComplete sampleA).out
            = sampleA.out
                ++ (sampleA.bufs.filter (fun b => b.live)).map (fun b => Out.next b.values)
                ++ [Out.complete]
          ∧ (step Ev.mainComplete sampleA).stopped = true
          ∧ (run initState ([4].map Ev.mainValue ++ [Ev.mainComplete])).out
              = ([Out.complete] : List (Out Nat Nat))) :=
  ⟨rfl, C3_fifo_completion sampleA [4] rfl⟩

/-- C9: downstream cancellation before main-source termination produces no
downstream signal of any kind, and no event processed after the
cancellation can ever reach the downstream consumer: the output trace stays
exactly what it was at the moment of cancellation. -/
theorem C9_cancel_silent (s : OpState T E) (es : List (Ev T E)) (h : s.stopped = false) :
    (step Ev.cancel s).out = s.out ∧ (run (step Ev.cancel s) es).out = s.out := by
  have hs : step Ev.cancel s = { s with stopped := true } := by simp [step, h]
  refine ⟨by rw [hs], ?_⟩
  rw [hs, run_stopped _ _ rfl]

theorem C9_cancel_silent_witness :
    sampleA.stopped = false
      ∧ ((step Ev.cancel sampleA).out = sampleA.out
          ∧ (run (step Ev.cancel sampleA)
                [Ev.mainValue 1, Ev.opening [], Ev.mainComplete]).out = sampleA.out) :=
  ⟨rfl, C9_cancel_silent sampleA [Ev.mainValue 1, Ev.opening [], Ev.mainComplete] rfl⟩

end BufferToggle

namespace BufferToggle

variable {T E : Type}

theorem runActs_append (i : Nat) (xs ys : List (CAct E)) (c : SyncCtx T E) :
    runActs i (xs ++ ys) c = runActs i ys (runActs i xs c) := by
  induction xs generalizing c with
  | nil => rfl
  | cons a rest ih => rw [List.cons_append, runActs, runActs, ih]

/-- C4: an error delivered by the main source, by the openings source, or by
the closing source of any buffer whose closing subscriber is still active,
is propagated verbatim downstream as the only new output (so pending buffers
are discarded without emission) and stops the downstream consumer; and once
the downstream consumer is stopped, processing any further events changes
nothing, so no buffer emission can follow the error. -/
theorem C4_error_terminal (s : OpState T E) (e : E) (i : Nat) (es : List (Ev T E))
    (t : OpState T E)
    (h : s.stopped = false) (ho : s.openingsActive = true) (hc : closerOn i s.bufs = true)
    (ht : t.stopped = true) :
    ((step (Ev.mainError e) s).out = s.out ++ [Out.error e]
        ∧ (step (Ev.mainError e) s).stopped = true)
      ∧ ((step (Ev.openingsError e) s).out = s.out ++ [Out.error e]
          ∧ (step (Ev.openingsError e) s).stopped = true)
      ∧ ((step (Ev.closeError i e) s).out = s.out ++ [Out.error e]
          ∧ (step (Ev.closeError i e) s).stopped = true)
      ∧ run t es = t := by
  refine ⟨?_, ?_, ?_, run_stopped t es ht⟩
  · constructor <;> simp [step, derror, h]
  · constructor <;> simp [step, derror, h, ho]
  · constructor <;> simp [step, stepCloseError, derror, h, hc]

theorem C4_error_terminal_witness :
    sampleA.stopped = false ∧ sampleA.openingsActive = true
      ∧ closerOn 0 sampleA.bufs = true ∧ ({ sampleA with stopped := true }).stopped = true
      ∧ (((step (Ev.mainError 5) sampleA).out = sampleA.out ++ [Out.error 5]
            ∧ (step (Ev.mainError 5) sampleA).stopped = true)
          ∧ ((step (Ev.openingsError 5) sampleA).out = sampleA.out ++ [Out.error 5]
              ∧ (step (Ev.openingsError 5) sampleA).stopped = true)
          ∧ ((step (Ev.closeError 0 5) sampleA).out = sampleA.out ++ [Out.error 5]
              ∧ (step (Ev.closeError 0 5) sampleA).stopped = true)
          ∧ run { sampleA with stopped := true } [Ev.mainValue 1, Ev.mainComplete]
              = { sampleA with stopped := true }) :=
  ⟨rfl, rfl, rfl, rfl,
    C4_error_terminal sampleA 5 0 [Ev.mainValue 1, Ev.mainComplete]
      { sampleA with stopped := true } rfl rfl rfl rfl⟩

theorem stepOpening_last_act (s : OpState T E) (pre : List (CAct E)) :
    stepOpening (pre ++ [CAct.ccomplete]) s = stepOpening (pre ++ [CAct.cnext]) s := by
  by_cases hg : (s.stopped || !s.openingsActive) = true
  · rw [stepOpening, stepOpening, if_pos hg, if_pos hg]
  · simp only [stepOpening, if_neg hg, runActs_append, runActs]
    set c := runActs s.nextId pre
      ⟨{ s with bufs := s.bufs ++ [newBuf T s.nextId], nextId := s.nextId + 1 },
        false, false⟩ with hcdef
    by_cases hstop : (c.subStopped || c.st.stopped) = true
    · simp [doAct, hstop]
    · simp [doAct, hstop, finishClosing]

/-- C5: the operator treats the completion of a closing source identically
to a first value from it.  Asynchronously, the delivery step for a closing
completion is the very same state transition as the delivery step for a
closing value; and for a closing source acting synchronously during its own
subscribe call, ending the deliveries with a completion produces exactly
the same operator state as ending them with a value that is followed by
nothing further: in both runs the same buffer is removed and emitted
downstream at the corresponding point. -/
theorem C5_close_done_eq_close_next (i : Nat) (s : OpState T E) (pre : List (CAct E)) :
    step (Ev.closeDone i) s = step (Ev.closeNext i) s
      ∧ step (Ev.opening (pre ++ [CAct.ccomplete])) s
          = step (Ev.opening (pre ++ [CAct.cnext])) s :=
  ⟨rfl, stepOpening_last_act s pre⟩

end BufferToggle

namespace BufferToggle

variable {T E : Type}

/-- Events that are deliveries of the openings source. -/
def touchesOpenings : Ev T E → Bool
  | Ev.opening _ => true
  | Ev.openingsComplete => true
  | Ev.openingsError _ => true
  | _ => false

theorem step_preserve_oa (ev : Ev T E) (s : OpState T E) (b : Bool)
    (hev : touchesOpenings ev = false) :
    step ev { s with openingsActive := b } = { step ev s with openingsActive := b } := by
  obtain ⟨bf, ni, ou, st, oa⟩ := s
  cases ev with
  | opening acts => simp [touchesOpenings] at hev
  | openingsComplete => simp [touchesOpenings] at hev
  | openingsError e => simp [touchesOpenings] at hev
  | mainValue v => by_cases hst : st = true <;> simp [step, hst]
  | mainComplete => by_cases hst : st = true <;> simp [step, stepMainComplete, dcomplete, hst]
  | mainError e => by_cases hst : st = true <;> simp [step, derror, hst]
  | closeNext i =>
    by_cases hst : st = true
    · simp [step, stepCloseNext, hst]
    · by_cases hcl : closerOn i bf = true <;>
        simp [step, stepCloseNext, emitBuffer, dnext, hst, hcl]
  | closeDone i =>
    by_cases hst : st = true
    · simp [step, stepCloseDone, hst]
    · by_cases hcl : closerOn i bf = true <;>
        simp [step, stepCloseDone, emitBuffer, dnext, hst, hcl]
  | closeError i e =>
    by_cases hst : st = true
    · simp [step, stepCloseError, hst]
    · by_cases hcl : closerOn i bf = true <;>
        simp [step, stepCloseError, derror, hst, hcl]
  | cancel => by_cases hst : st = true <;> simp [step, hst]

theorem run_preserve_oa (es : List (Ev T E)) (s : OpState T E) (b : Bool)
    (hes : es.all (fun ev => !touchesOpenings ev) = true) :
    run { s with openingsActive := b } es = { run s es with openingsActive := b } := by
  induction es generalizing s with
  | nil => rfl
  | cons ev evs ih =>
    simp only [List.all_cons, Bool.and_eq_true] at hes
    obtain ⟨h1, h2⟩ := hes
    have h1f : touchesOpenings ev = false := by simpa using h1
    rw [run, step_preserve_oa ev s b h1f, run]
    exact ih _ h2

/-- C7: a completion of the openings source is swallowed: it produces no
downstream signal and leaves the buffers and the stopped flag untouched,
and the processing of any following deliveries that do not come from the
openings source (main values, main termination, closing events,
cancellation) is exactly as if the openings completion had never happened:
open buffers keep collecting and the operator still terminates with the
main source. -/
theorem C7_openings_complete_swallowed (s : OpState T E) (es : List (Ev T E))
    (h : s.stopped = false) (hes : es.all (fun ev => !touchesOpenings ev) = true) :
    (step Ev.openingsComplete s).out = s.out
      ∧ (step Ev.openingsComplete s).bufs = s.bufs
      ∧ (step Ev.openingsComplete s).stopped = false
      ∧ (run (step Ev.openingsComplete s) es).out = (run s es).out
      ∧ (run (step Ev.openingsComplete s) es).bufs = (run s es).bufs
      ∧ (run (step Ev.openingsComplete s) es).stopped = (run s es).stopped := by
  have hs : step Ev.openingsComplete s = { s with openingsActive := false } := by
    simp [step, h]
  rw [hs, run_preserve_oa es s false hes]
  simp [h]

/-- Sample non-openings continuation events for witnesses. -/
def sampleEvs : List (Ev Nat Nat) := [Ev.mainValue 1, Ev.closeNext 0, Ev.mainComplete]

theorem C7_openings_complete_swallowed_witness :
    sampleA.stopped = false
      ∧ (sampleEvs.all (fun ev => !touchesOpenings ev) = true)
      ∧ ((step Ev.openingsComplete sampleA).out = sampleA.out
          ∧ (step Ev.openingsComplete sampleA).bufs = sampleA.bufs
          ∧ (step Ev.openingsComplete sampleA).stopped = false
          ∧ (run (step Ev.openingsComplete sampleA) sampleEvs).out
              = (run sampleA sampleEvs).out
          ∧ (run (step Ev.openingsComplete sampleA) sampleEvs).bufs
              = (run sampleA sampleEvs).bufs
          ∧ (run (step Ev.openingsComplete sampleA) sampleEvs).stopped
              = (run sampleA sampleEvs).stopped) :=
  ⟨rfl, rfl, C7_openings_complete_swallowed sampleA sampleEvs rfl rfl⟩

end BufferToggle


namespace BufferToggle

variable {T E : Type}

/-- Whether a downstream delivery is a terminal signal. -/
def isTerminal : Out T E → Bool
  | Out.next _ => false
  | Out.complete => true
  | Out.error _ => true

/-- The output trace carries no terminal signal. -/
def noTermB (l : List (Out T E)) : Bool := l.all (fun o => !isTerminal o)

/-- The output trace holds at most one terminal signal, and if one is
present it is the very last delivery. -/
def terminalLastOnly : List (Out T E) → Bool
  | [] => true
  | o :: rest => if isTerminal o then rest.isEmpty else terminalLastOnly rest

theorem noTermB_snoc (l : List (Out T E)) (o : Out T E) :
    noTermB (l ++ [o]) = (noTermB l && !isTerminal o) := by
  simp [noTermB, List.all_append]

theorem noTermB_append (a b : List (Out T E)) :
    noTermB (a ++ b) = (noTermB a && noTermB b) := by
  simp [noTermB, List.all_append]

theorem terminalLastOnly_of_noTerm (l : List (Out T E)) (h : noTermB l = true) :
    terminalLastOnly l = true := by
  induction l with
  | nil => rfl
  | cons o rest ih =>
    simp only [noTermB, List.all_cons, Bool.and_eq_true] at h
    obtain ⟨h1, h2⟩ := h
    have ho : isTerminal o = false := by simpa using h1
    rw [terminalLastOnly, ho]
    simpa using ih h2

theorem terminalLastOnly_snoc (l : List (Out T E)) (o : Out T E)
    (h : noTermB l = true) : terminalLastOnly (l ++ [o]) = true := by
  induction l with
  | nil =>
    rw [List.nil_append, terminalLastOnly]
    cases hx : isTerminal o <;> simp [terminalLastOnly]
  | cons a rest ih =>
    simp only [noTermB, List.all_cons, Bool.and_eq_true] at h
    obtain ⟨h1, h2⟩ := h
    have ha : isTerminal a = false := by simpa using h1
    rw [List.cons_append, terminalLastOnly, ha]
    simpa using ih h2

theorem noTermB_map_next (bs : List (Buf T)) :
    noTermB ((bs.map (fun b => Out.next b.values)) : List (Out T E)) = true := by
  simp [noTermB, List.all_map, isTerminal, Function.comp]

theorem emitBuffer_fields (i : Nat) (s : OpState T E) (h : s.stopped = false) :
    (emitBuffer i s).out = s.out ++ [Out.next (getValues i s.bufs)]
      ∧ (emitBuffer i s).stopped = false
      ∧ (emitBuffer i s).bufs = removeLive i s.bufs
      ∧ (emitBuffer i s).nextId = s.nextId := by
  simp [emitBuffer, dnext, h]

theorem derror_fields (e : E) (s : OpState T E) (h : s.stopped = false) :
    (derror e s).out = s.out ++ [Out.error e] ∧ (derror e s).stopped = true := by
  simp [derror, h]

theorem dcomplete_fields (s : OpState T E) (h : s.stopped = false) :
    (dcomplete s).out = s.out ++ [Out.complete] ∧ (dcomplete s).stopped = true := by
  simp [dcomplete, h]

/-- The downstream-trace invariant: the trace never holds a terminal signal
other than as its final delivery, and while the downstream subscriber is
not stopped the trace holds no terminal signal at all. -/
def invTerm (s : OpState T E) : Prop :=
  terminalLastOnly s.out = true ∧ (s.stopped = false → noTermB s.out = true)

theorem doAct_invTerm (i : Nat) (a : CAct E) (c : SyncCtx T E)
    (h1 : terminalLastOnly c.st.out = true)
    (h2 : c.st.stopped = false → noTermB c.st.out = true) :
    terminalLastOnly (doAct i a c).st.out = true
      ∧ ((doAct i a c).st.stopped = false → noTermB (doAct i a c).st.out = true) := by
  by_cases hg : (c.subStopped || c.st.stopped) = true
  · rw [doAct.eq_def, if_pos hg]; exact ⟨h1, h2⟩
  · have hparts : c.subStopped = false ∧ c.st.stopped = false := by
      simp only [Bool.or_eq_true, not_or, Bool.not_eq_true] at hg; exact hg
    have hclean := h2 hparts.2
    have hem := emitBuffer_fields i c.st hparts.2
    rw [doAct.eq_def, if_neg hg]
    cases a with
    | cnext =>
      refine ⟨?_, fun _ => ?_⟩
      · show terminalLastOnly (emitBuffer i c.st).out = true
        rw [hem.1]; exact terminalLastOnly_snoc c.st.out _ hclean
      · show noTermB (emitBuffer i c.st).out = true
        rw [hem.1, noTermB_snoc, hclean]; rfl
    | ccomplete =>
      refine ⟨?_, fun _ => ?_⟩
      · show terminalLastOnly (emitBuffer i c.st).out = true
        rw [hem.1]; exact terminalLastOnly_snoc c.st.out _ hclean
      · show noTermB (emitBuffer i c.st).out = true
        rw [hem.1, noTermB_snoc, hclean]; rfl
    | cerror e =>
      have hde := derror_fields e c.st hparts.2
      refine ⟨?_, fun hf => ?_⟩
      · show terminalLastOnly (derror e c.st).out = true
        rw [hde.1]; exact terminalLastOnly_snoc c.st.out _ hclean
      · have hf2 : (derror e c.st).stopped = false := hf
        rw [hde.2] at hf2
        exact Bool.noConfusion hf2

theorem runActs_invTerm (i : Nat) (acts : List (CAct E)) (c : SyncCtx T E)
    (h1 : terminalLastOnly c.st.out = true)
    (h2 : c.st.stopped = false → noTermB c.st.out = true) :
    terminalLastOnly (runActs i acts c).st.out = true
      ∧ ((runActs i acts c).st.stopped = false → noTermB (runActs i acts c).st.out = true) := by
  induction acts generalizing c with
  | nil => exact ⟨h1, h2⟩
  | cons a rest ih =>
    obtain ⟨g1, g2⟩ := doAct_invTerm i a c h1 h2
    rw [runActs]
    exact ih _ g1 g2

theorem step_invTerm (ev : Ev T E) (s : OpState T E) (h : invTerm s) : invTerm (step ev s) := by
  by_cases hst : s.stopped = true
  · rw [step_stopped ev s hst]; exact h
  · have hstf : s.stopped = false := by simpa using hst
    have hclean : noTermB s.out = true := h.2 hstf
    cases ev with
    | opening acts =>
      show invTerm (stepOpening acts s)
      by_cases hoa : s.openingsActive = true
      · have hra := runActs_invTerm s.nextId acts
          ⟨{ s with bufs := s.bufs ++ [newBuf T s.nextId], nextId := s.nextId + 1 },
            false, false⟩ (by simpa using h.1) (fun _ => by simpa using hclean)
        constructor
        · simpa [stepOpening, hstf, hoa] using hra.1
        · simpa [stepOpening, hstf, hoa] using hra.2
      · have hoaf : s.openingsActive = false := by simpa using hoa
        have heq : stepOpening acts s = s := by simp [stepOpening, hstf, hoaf]
        rw [heq]; exact h
    | openingsComplete =>
      have heq : step Ev.openingsComplete s = { s with openingsActive := false } := by
        simp [step, hstf]
      rw [heq]
      exact ⟨h.1, fun _ => hclean⟩
    | openingsError e =>
      by_cases hoa : s.openingsActive = true
      · have hde := derror_fields e { s with openingsActive := false } hstf
        have heq : step (Ev.openingsError e) s = derror e { s with openingsActive := false } := by
          simp [step, hstf, hoa]
        rw [heq]
        refine ⟨?_, fun hf => ?_⟩
        · rw [hde.1]; exact terminalLastOnly_snoc s.out _ hclean
        · rw [hde.2] at hf; exact Bool.noConfusion hf
      · have hoaf : s.openingsActive = false := by simpa using hoa
        have heq : step (Ev.openingsError e) s = s := by simp [step, hstf, hoaf]
        rw [heq]; exact h
    | mainValue v =>
      have heq : step (Ev.mainValue v) s = { s with bufs := fanOut v s.bufs } := by
        simp [step, hstf]
      rw [heq]
      exact ⟨h.1, fun _ => hclean⟩
    | mainComplete =>
      have hnt : noTermB (s.out
          ++ (s.bufs.filter (fun b => b.live)).map (fun b => Out.next b.values)) = true := by
        rw [noTermB_append, hclean, noTermB_map_next]
        rfl
      have hdc := dcomplete_fields
        { s with
          out := s.out ++ (s.bufs.filter (fun b => b.live)).map (fun b => Out.next b.values),
          bufs := s.bufs.map (fun b => { b with live := false }) } hstf
      have heq : step Ev.mainComplete s
          = dcomplete
              { s with
                out := s.out
                  ++ (s.bufs.filter (fun b => b.live)).map (fun b => Out.next b.values),
                bufs := s.bufs.map (fun b => { b with live := false }) } := by
        simp [step, stepMainComplete, hstf]
      rw [heq]
      refine ⟨?_, fun hf => ?_⟩
      · rw [hdc.1]; exact terminalLastOnly_snoc _ _ hnt
      · rw [hdc.2] at hf; exact Bool.noConfusion hf
    | mainError e =>
      have hde := derror_fields e s hstf
      have heq : step (Ev.mainError e) s = derror e s := by simp [step, hstf]
      rw [heq]
      refine ⟨?_, fun hf => ?_⟩
      · rw [hde.1]; exact terminalLastOnly_snoc s.out _ hclean
      · rw [hde.2] at hf; exact Bool.noConfusion hf
    | closeNext i =>
      by_cases hcl : closerOn i s.bufs = true
      · have hem := emitBuffer_fields i s hstf
        have heq : step (Ev.closeNext i) s
            = { emitBuffer i s with bufs := setCloser i false (emitBuffer i s).bufs } := by
          simp [step, stepCloseNext, hstf, hcl]
        rw [heq]
        refine ⟨?_, fun _ => ?_⟩
        · show terminalLastOnly (emitBuffer i s).out = true
          rw [hem.1]; exact terminalLastOnly_snoc s.out _ hclean
        · show noTermB (emitBuffer i s).out = true
          rw [hem.1, noTermB_snoc, hclean]; rfl
      · have hclf : closerOn i s.bufs = false := by simpa using hcl
        have heq : step (Ev.closeNext i) s = s := by simp [step, stepCloseNext, hstf, hclf]
        rw [heq]; exact h
    | closeDone i =>
      by_cases hcl : closerOn i s.bufs = true
      · have hem := emitBuffer_fields i s hstf
        have heq : step (Ev.closeDone i) s
            = { emitBuffer i s with bufs := setCloser i false (emitBuffer i s).bufs } := by
          simp [step, stepCloseDone, hstf, hcl]
        rw [heq]
        refine ⟨?_, fun _ => ?_⟩
        · show terminalLastOnly (emitBuffer i s).out = true
          rw [hem.1]; exact terminalLastOnly_snoc s.out _ hclean
        · show noTermB (emitBuffer i s).out = true
          rw [hem.1, noTermB_snoc, hclean]; rfl
      · have hclf : closerOn i s.bufs = false := by simpa using hcl
        have heq : step (Ev.closeDone i) s = s := by simp [step, stepCloseDone, hstf, hclf]
        rw [heq]; exact h
    | closeError i e =>
      by_cases hcl : closerOn i s.bufs = true
      · have hde := derror_fields e { s with bufs := setCloser i false s.bufs } hstf
        have heq : step (Ev.closeError i e) s
            = derror e { s with bufs := setCloser i false s.bufs } := by
          simp [step, stepCloseError, hstf, hcl]
        rw [heq]
        refine ⟨?_, fun hf => ?_⟩
        · rw [hde.1]; exact terminalLastOnly_snoc s.out _ hclean
        · rw [hde.2] at hf; exact Bool.noConfusion hf
      · have hclf : closerOn i s.bufs = false := by simpa using hcl
        have heq : step (Ev.closeError i e) s = s := by simp [step, stepCloseError, hstf, hclf]
        rw [heq]; exact h
    | cancel =>
      have heq : step Ev.cancel s = { s with stopped := true } := by simp [step, hstf]
      rw [heq]
      exact ⟨h.1, fun hf => Bool.noConfusion hf⟩

theorem invTerm_run (es : List (Ev T E)) : invTerm (run (initState : OpState T E) es) := by
  have hgen : ∀ s : OpState T E, invTerm s → invTerm (run s es) := by
    induction es with
    | nil => exact fun s hs => hs
    | cons ev evs ih => exact fun s hs => ih (step ev s) (step_invTerm ev s hs)
  exact hgen initState ⟨rfl, fun _ => rfl⟩

theorem terminals_le_one (l : List (Out T E)) (h : terminalLastOnly l = true) :
    (l.filter (fun o => isTerminal o)).length ≤ 1 := by
  induction l with
  | nil => simp
  | cons o rest ih =>
    rw [terminalLastOnly] at h
    by_cases ho : isTerminal o = true
    · rw [if_pos ho] at h
      have hrest : rest = [] := by
        cases rest with
        | nil => rfl
        | cons x xs => simp [List.isEmpty] at h
      subst hrest
      simp [ho]
    · have hof : isTerminal o = false := by simpa using ho
      rw [if_neg ho] at h
      simpa [List.filter_cons, hof] using ih h

/-- C6: in any run of the operator, at most one terminal signal (error or
completion) ever reaches the downstream consumer, and any terminal signal
is the final downstream delivery, so no value emission follows it; in
particular when the main source errors and the openings source then errors
synchronously chained right after, only the first error reaches downstream
and nothing follows it. -/
theorem C6_first_terminal_wins (es : List (Ev T E)) (e1 e2 : E) :
    terminalLastOnly (run (initState : OpState T E) es).out = true
      ∧ ((run (initState : OpState T E) es).out.filter (fun o => isTerminal o)).length ≤ 1
      ∧ (run (initState : OpState T E) (Ev.mainError e1 :: Ev.openingsError e2 :: es)).out
          = [Out.error e1] := by
  refine ⟨(invTerm_run es).1, terminals_le_one _ (invTerm_run es).1, ?_⟩
  have h1 : step (Ev.mainError e1) (initState : OpState T E)
      = { bufs := [], nextId := 0, out := [Out.error e1],
          stopped := true, openingsActive := true } := rfl
  rw [run, h1, run, step_stopped _ _ rfl, run_stopped _ _ rfl]

end BufferToggle

namespace BufferToggle

variable {T E : Type}

theorem removeLive_append_fresh (i : Nat) (pre l : List (Buf T))
    (hp : ∀ x ∈ pre, (x.id == i) = false) :
    removeLive i (pre ++ l) = pre ++ removeLive i l := by
  induction pre with
  | nil => rfl
  | cons x rest ih =>
    have hx := hp x (List.mem_cons_self x rest)
    simp [removeLive, hx, ih (fun y hy => hp y (List.mem_cons_of_mem x hy))]

theorem map_noop_of_fresh (i : Nat) (a : Bool) (pre : List (Buf T))
    (hp : ∀ x ∈ pre, (x.id == i) = false) :
    pre.map (fun b => if b.id == i then { b with closerActive := a } else b) = pre := by
  induction pre with
  | nil => rfl
  | cons x rest ih =>
    have hx := hp x (List.mem_cons_self x rest)
    have hxne : ¬((x.id == i) = true) := by simp [hx]
    rw [List.map_cons, if_neg hxne, ih (fun y hy => hp y (List.mem_cons_of_mem x hy))]

theorem setCloser_append_fresh (i : Nat) (a : Bool) (pre l : List (Buf T))
    (hp : ∀ x ∈ pre, (x.id == i) = false) :
    setCloser i a (pre ++ l) = pre ++ setCloser i a l := by
  rw [setCloser, List.map_append, map_noop_of_fresh i a pre hp]
  rfl

theorem derror_keep (e : E) (s : OpState T E) :
    (derror e s).bufs = s.bufs ∧ (derror e s).nextId = s.nextId := by
  by_cases h : s.stopped = true <;> simp [derror, h]

theorem runActs_shape (i : Nat) (acts : List (CAct E)) (pre : List (Buf T))
    (hp : ∀ x ∈ pre, (x.id == i) = false) :
    ∀ c : SyncCtx T E, ∀ b : Buf T, b.id = i → b.values = [] → c.st.bufs = pre ++ [b] →
      ∃ b2 : Buf T, (runActs i acts c).st.bufs = pre ++ [b2] ∧ b2.id = i ∧ b2.values = []
        ∧ (runActs i acts c).st.nextId = c.st.nextId := by
  induction acts with
  | nil => exact fun c b h1 h2 h3 => ⟨b, h3, h1, h2, rfl⟩
  | cons a rest ih =>
    intro c b h1 h2 h3
    rw [runActs]
    by_cases hg : (c.subStopped || c.st.stopped) = true
    · rw [doAct.eq_def, if_pos hg]
      exact ih c b h1 h2 h3
    · have hstop : c.st.stopped = false := by
        simp only [Bool.or_eq_true, not_or, Bool.not_eq_true] at hg
        exact hg.2
      rw [doAct.eq_def, if_neg hg]
      have hem := emitBuffer_fields i c.st hstop
      have hbufs : (emitBuffer i c.st).bufs = pre ++ removeLive i [b] := by
        rw [hem.2.2.1, h3, removeLive_append_fresh i pre [b] hp]
      have hrem : ∃ b1 : Buf T, removeLive i [b] = [b1] ∧ b1.id = i ∧ b1.values = [] := by
        by_cases hb : (b.id == i && b.live) = true
        · exact ⟨{ b with live := false }, by simp [removeLive, hb], h1, h2⟩
        · exact ⟨b, by simp [removeLive, hb], h1, h2⟩
      obtain ⟨b1, hb1, hid1, hv1⟩ := hrem
      cases a with
      | cnext =>
        obtain ⟨b2, g1, g2, g3, g4⟩ :=
          ih ⟨emitBuffer i c.st, c.subStopped, true⟩ b1 hid1 hv1 (by rw [hbufs, hb1])
        exact ⟨b2, g1, g2, g3, by rw [g4]; exact hem.2.2.2⟩
      | ccomplete =>
        obtain ⟨b2, g1, g2, g3, g4⟩ :=
          ih ⟨emitBuffer i c.st, true, true⟩ b1 hid1 hv1 (by rw [hbufs, hb1])
        exact ⟨b2, g1, g2, g3, by rw [g4]; exact hem.2.2.2⟩
      | cerror e =>
        obtain ⟨b2, g1, g2, g3, g4⟩ :=
          ih ⟨derror e c.st, true, c.subClosed⟩ b h1 h2
            (by rw [(derror_keep e c.st).1, h3])
        exact ⟨b2, g1, g2, g3, by rw [g4]; exact (derror_keep e c.st).2⟩

theorem stepOpening_shape (s : OpState T E) (acts : List (CAct E))
    (h : s.stopped = false) (ho : s.openingsActive = true)
    (hp : ∀ x ∈ s.bufs, (x.id == s.nextId) = false) :
    ∃ b2 : Buf T, (stepOpening acts s).bufs = s.bufs ++ [b2] ∧ b2.id = s.nextId
      ∧ b2.values = [] ∧ (stepOpening acts s).nextId = s.nextId + 1 := by
  have hgate : ¬((s.stopped || !s.openingsActive) = true) := by simp [h, ho]
  rw [stepOpening, if_neg hgate]
  obtain ⟨b2, hb2, hid2, hv2, hn2⟩ :=
    runActs_shape s.nextId acts s.bufs hp
      ⟨{ s with bufs := s.bufs ++ [newBuf T s.nextId], nextId := s.nextId + 1 },
        false, false⟩
      (newBuf T s.nextId) rfl rfl rfl
  set cr := runActs s.nextId acts
    ⟨{ s with bufs := s.bufs ++ [newBuf T s.nextId], nextId := s.nextId + 1 },
      false, false⟩ with hcr
  refine ⟨{ b2 with closerActive := !(cr.subStopped || cr.subClosed) }, ?_, hid2, hv2, ?_⟩
  · show (finishClosing s.nextId cr).bufs = _
    rw [finishClosing]
    show setCloser s.nextId (!(cr.subStopped || cr.subClosed)) cr.st.bufs = _
    rw [hb2, setCloser_append_fresh _ _ _ _ hp, setCloser]
    simp [hid2]
  · show (finishClosing s.nextId cr).nextId = s.nextId + 1
    rw [finishClosing]
    exact hn2

end BufferToggle

namespace BufferToggle

variable {T E : Type}

/-- C8: every openings value, delivered while the operator is running and
the openings subscriber is active, creates exactly one new buffer: it is
empty, carries the fresh id, and is appended at the end of the buffer list
(the buffers already present are left exactly as they were, each keeping
its own closing subscription); when the closing source does nothing
synchronously the new buffer is live with its own active closing
subscription and nothing is emitted downstream.  Openings values are never
deduplicated: the handler runs this way for every single delivery. -/
theorem C8_opening_creates_buffer (s : OpState T E) (acts : List (CAct E))
    (h : s.stopped = false) (ho : s.openingsActive = true)
    (hid : ∀ x ∈ s.bufs, x.id < s.nextId) :
    (∃ b2 : Buf T, (step (Ev.opening acts) s).bufs = s.bufs ++ [b2]
        ∧ b2.id = s.nextId ∧ b2.values = [])
      ∧ (step (Ev.opening acts) s).nextId = s.nextId + 1
      ∧ (step (Ev.opening ([] : List (CAct E))) s).bufs
          = s.bufs ++ [{ id := s.nextId, values := [], live := true, closerActive := true }]
      ∧ (step (Ev.opening ([] : List (CAct E))) s).out = s.out := by
  have hp : ∀ x ∈ s.bufs, (x.id == s.nextId) = false := by
    intro x hx
    have hlt := hid x hx
    simp only [beq_eq_false_iff_ne]
    omega
  have hgate : ¬((s.stopped || !s.openingsActive) = true) := by simp [h, ho]
  obtain ⟨b2, hb2, hi2, hv2, hn2⟩ := stepOpening_shape s acts h ho hp
  refine ⟨⟨b2, hb2, hi2, hv2⟩, hn2, ?_, ?_⟩
  · show (stepOpening [] s).bufs = _
    rw [stepOpening, if_neg hgate]
    show setCloser s.nextId true (s.bufs ++ [newBuf T s.nextId]) = _
    rw [setCloser_append_fresh _ _ _ _ hp]
    simp [setCloser, newBuf]
  · show (stepOpening [] s).out = s.out
    rw [stepOpening, if_neg hgate]
    rfl

theorem C8_opening_creates_buffer_witness :
    sampleA.stopped = false ∧ sampleA.openingsActive = true
      ∧ (∀ x ∈ sampleA.bufs, x.id < sampleA.nextId)
      ∧ ((∃ b2 : Buf Nat,
            (step (Ev.opening [CAct.cnext]) sampleA).bufs = sampleA.bufs ++ [b2]
              ∧ b2.id = sampleA.nextId ∧ b2.values = [])
          ∧ (step (Ev.opening [CAct.cnext]) sampleA).nextId = sampleA.nextId + 1
          ∧ (step (Ev.opening ([] : List (CAct Nat))) sampleA).bufs
              = sampleA.bufs
                  ++ [{ id := sampleA.nextId, values := [], live := true, closerActive := true }]
          ∧ (step (Ev.opening ([] : List (CAct Nat))) sampleA).out = sampleA.out) :=
  ⟨rfl, rfl, by decide,
    C8_opening_creates_buffer sampleA [CAct.cnext] rfl rfl (by decide)⟩

/-- The buffer list produced by n synchronous openings whose closing
sources have not yet fired. -/
def liveBufsRange (T : Type) (n : Nat) : List (Buf T) :=
  (List.range n).map (fun i => { id := i, values := [], live := true, closerActive := true })

theorem opensRun (n : Nat) :
    run (initState : OpState T E) ((List.replicate n ([] : List (CAct E))).map Ev.opening)
      = { bufs := liveBufsRange T n, nextId := n, out := [], stopped := false,
          openingsActive := true } := by
  induction n with
  | zero => rfl
  | succ n ih =>
    rw [List.replicate_succ', List.map_append, run_append, ih]
    have hp : ∀ x ∈ liveBufsRange T n, (x.id == n) = false := by
      intro x hx
      obtain ⟨i, hi, rfl⟩ := List.mem_map.mp hx
      have hin : i < n := List.mem_range.mp hi
      simp only [beq_eq_false_iff_ne]
      show i ≠ n
      omega
    have hone : setCloser n true [newBuf T n]
        = [({ id := n, values := [], live := true, closerActive := true } : Buf T)] := by
      simp [setCloser, newBuf]
    have hsc : setCloser n true (liveBufsRange T n ++ [newBuf T n])
        = liveBufsRange T (n + 1) := by
      rw [setCloser_append_fresh _ _ _ _ hp, hone]
      simp only [liveBufsRange, List.range_succ, List.map_append]
      rfl
    show ({ bufs := setCloser n true (liveBufsRange T n ++ [newBuf T n]), nextId := n + 1,
            out := [], stopped := false, openingsActive := true } : OpState T E) = _
    rw [hsc]

/-- C10: the operator subscribes to the openings source strictly before the
main source, so after a subscribe call in which the openings source emits n
values synchronously and the main source then emits one value v
synchronously, all n buffers exist before the fan-out and every one of
them holds exactly [v]. -/
theorem C10_openings_subscribed_first (n : Nat) (v : T) :
    ((subscribeToggle (E := E) (List.replicate n []) [v]).bufs).length = n
      ∧ ∀ b ∈ (subscribeToggle (E := E) (List.replicate n []) [v]).bufs, b.values = [v] := by
  have hrun : subscribeToggle (E := E) (List.replicate n ([] : List (CAct E))) [v]
      = step (Ev.mainValue v)
          { bufs := liveBufsRange T n, nextId := n, out := [], stopped := false,
            openingsActive := true } := by
    rw [subscribeToggle, run_append, opensRun]
    rfl
  have hstep : step (Ev.mainValue v)
      ({ bufs := liveBufsRange T n, nextId := n, out := [], stopped := false,
         openingsActive := true } : OpState T E)
      = { bufs := (List.range n).map
            (fun i => { id := i, values := [v], live := true, closerActive := true }),
          nextId := n, out := [], stopped := false, openingsActive := true } := by
    show ({ bufs := fanOut v (liveBufsRange T n), nextId := n, out := [], stopped := false,
            openingsActive := true } : OpState T E) = _
    rw [fanOut, liveBufsRange, List.map_map]
    rfl
  rw [hrun, hstep]
  constructor
  · simp
  · intro b hb
    obtain ⟨i, hi, rfl⟩ := List.mem_map.mp hb
    rfl

theorem C10_openings_subscribed_first_witness :
    ((subscribeToggle (T := Nat) (E := Nat) (List.replicate 2 []) [7]).bufs).length = 2
      ∧ ∀ b ∈ (subscribeToggle (T := Nat) (E := Nat) (List.replicate 2 []) [7]).bufs,
          b.values = [7] :=
  C10_openings_subscribed_first 2 7

end BufferToggle
